import Mathlib

/-!
# Verification of the RCloneGUI process-lifecycle core

Shallow embedding, in Lean 4, of the parts of the RCloneGUI code base that
the specification's correctness claims are about:

* `app/core/mount_manager.py` — the `_parse_rclone_mount_cmdline` regex
  parser, `MountManager.discover_system_mounts`, `MountManager.unmount`,
  and `MountManager.get_available_drives`;
* `app/models/mount.py` — the `Mount` dataclass with its `__post_init__`
  validation, `to_dict` / `from_dict` serialization and `from_process_info`;
* `app/models/sync_task.py` — the `SyncTask` dataclass, its progress
  property and `from_dict`;
* `app/core/sync_manager.py` — `SyncManager.load_tasks`;
* `app/core/rclone.py` — `RClone._run` result normalization;
* `app/core/scheduler.py` — `SyncScheduler._on_tick` / `update_last_run`.

Python strings are modelled as `List Char` (`PyStr`), machine integers as
`Int`/`Nat`, fallible code as `Except`, and the OS environment (existing
drives, subprocess outcomes, wall-clock readings, croniter) as explicit
function parameters.  Only the ASCII behaviour of Python's `str.upper`,
`str.lower` and of the `re` character classes `\s`, `\S`, `\d`, `\b` is
modelled; all inputs relevant to the claims are ASCII.
-/

/-- Python strings are modelled as lists of characters. -/
abbrev PyStr := List Char

/-- Python regex `\s` (ASCII part): space, tab, newline, carriage return,
vertical tab, form feed. -/
def isSpace (c : Char) : Bool :=
  c == ' ' || c == '\t' || c == '\n' || c == '\r' || c == '\x0b' || c == '\x0c'

/-- ASCII digit `0`-`9` (regex `\d`, ASCII part). -/
def isDigitChar (c : Char) : Bool :=
  48 ≤ c.toNat && c.toNat ≤ 57

/-- ASCII uppercase letter `A`-`Z`. -/
def isUpperChar (c : Char) : Bool :=
  65 ≤ c.toNat && c.toNat ≤ 90

/-- ASCII lowercase letter `a`-`z`. -/
def isLowerChar (c : Char) : Bool :=
  97 ≤ c.toNat && c.toNat ≤ 122

/-- Regex class `[A-Za-z]`. -/
def isAsciiLetter (c : Char) : Bool :=
  isUpperChar c || isLowerChar c

/-- Regex class `[A-Za-z0-9_]` (also Python's `\w`, ASCII part), used both
for the word-boundary `\b` and as the first-character class of a remote
name in `_parse_rclone_mount_cmdline`. -/
def isWordChar (c : Char) : Bool :=
  isUpperChar c || isLowerChar c || isDigitChar c || c == '_'

/-- Regex class `[A-Za-z0-9_.@\-]`: continuation characters of a remote
name in `_parse_rclone_mount_cmdline`. -/
def isRemoteCont (c : Char) : Bool :=
  isWordChar c || c == '.' || c == '@' || c == '-'

/-- `str.upper` on one character (ASCII part, which is all the code uses). -/
def pyUpper (c : Char) : Char :=
  if isLowerChar c then Char.ofNat (c.toNat - 32) else c

/-- `str.lower` on one character (ASCII part). -/
def pyLower (c : Char) : Char :=
  if isUpperChar c then Char.ofNat (c.toNat + 32) else c

/-- `str.upper` on a whole Python string. -/
def pyUpperStr (s : PyStr) : PyStr := s.map pyUpper

/-- Case-insensitive comparison of an input character against a (lowercase)
pattern character, as performed by `re.IGNORECASE`. -/
def lowerEq (c pat : Char) : Bool := pyLower c == pat

/-- `ciStarts pat l`: the literal `pat` (given in lowercase) matches,
case-insensitively, at the start of `l`. -/
def ciStarts : List Char → List Char → Bool
  | [], _ => true
  | _ :: _, [] => false
  | p :: ps, c :: cs => lowerEq c p && ciStarts ps cs

/-- The literal `mount` of the pattern in `_parse_rclone_mount_cmdline`,
matched case-insensitively (the pattern carries `re.IGNORECASE`). -/
def mountLit : List Char := ['m', 'o', 'u', 'n', 't']

/-- Does `l` start (case-insensitively) with `mount`? -/
def startsWithMountCI (l : List Char) : Bool := ciStarts mountLit l

/-- `(?:\s|$)`: the next character is whitespace, or the string ends. -/
def headSpaceOrEnd : List Char → Bool
  | [] => true
  | r :: _ => isSpace r

/-- `([A-Z]):(?:\s|$)` (with `re.IGNORECASE`) on what follows the
whitespace before the drive: a letter, a colon, then whitespace or
end-of-string; captures the drive letter. -/
def mountTailDrive (remote : List Char) : List Char → Option (List Char × Char)
  | d :: ':' :: rest =>
    if isAsciiLetter d && headSpaceOrEnd rest then some (remote, d) else none
  | _ => none

/-- `\S*\s+` then the drive part, on what follows `remote:`.  `\S*` is the
maximal non-whitespace run and `\s+` the maximal whitespace run after it,
which must be non-empty (each greedy run is followed by a character
outside its class, so backtracking adds nothing). -/
def mountTailPath (remote r3 : List Char) : Option (List Char × Char) :=
  let r4 := r3.dropWhile (fun c => !isSpace c)
  if (r4.takeWhile isSpace).isEmpty then none
  else mountTailDrive remote (r4.dropWhile isSpace)

/-- The literal `:` after the remote name. -/
def mountTailColon (remote : List Char) : List Char → Option (List Char × Char)
  | ':' :: r3 => mountTailPath remote r3
  | _ => none

/-- `([A-Za-z0-9_][A-Za-z0-9_.@\-]*):` on what follows the whitespace after
`mount`: a word character starts the remote name, the greedy class run is
maximal (the following character, which must be `:`, is outside the
class), and the run is captured. -/
def mountTailRemote : List Char → Option (List Char × Char)
  | [] => none
  | c :: tail =>
    if isWordChar c then
      mountTailColon ((c :: tail).takeWhile isRemoteCont)
        ((c :: tail).dropWhile isRemoteCont)
    else none

/-- The part of the regex after `\bmount`:
`\s+([A-Za-z0-9_][A-Za-z0-9_.@\-]*):\S*\s+([A-Z]):(?:\s|$)` with
`re.IGNORECASE`, attempted at a fixed position.  Each quantifier in the
pattern is effectively deterministic (each greedy run is followed by a
character that cannot belong to the run's class), so the backtracking
regex is equivalent to this straight-line matcher built from maximal
`takeWhile` runs.  Returns the two captures `(remote_name, drive_char)`.
Note `([A-Z])` under `re.IGNORECASE` accepts a lowercase letter too. -/
def matchAfterMount (cs : List Char) : Option (List Char × Char) :=
  if (cs.takeWhile isSpace).isEmpty then none
  else mountTailRemote (cs.dropWhile isSpace)

/-- `re.search` for the mount pattern: try every position left to right; a
match attempt can only start at a case-insensitive occurrence of `mount`
preceded by a word boundary (`\b`; `prevWord` tracks whether the previous
character was a word character). -/
def searchMount (prevWord : Bool) : List Char → Option (List Char × Char)
  | [] => none
  | c :: rest =>
    if !prevWord && startsWithMountCI (c :: rest) then
      match matchAfterMount ((c :: rest).drop 5) with
      | some r => some r
      | none => searchMount (isWordChar c) rest
    else searchMount (isWordChar c) rest

/-- `_parse_rclone_mount_cmdline` (app/core/mount_manager.py): extract the
drive letter (uppercased) and remote name from an `rclone mount` command
line, returning `none` when the pattern does not match.  The Python
guard `not cmdline or not isinstance(cmdline, str)` returns `None` for the
empty string; non-string input has no counterpart in a typed embedding. -/
def _parse_rclone_mount_cmdline (s : PyStr) : Option (PyStr × PyStr) :=
  match searchMount false s with
  | some (remote, d) => some ([pyUpper d], remote)
  | none => none

example : _parse_rclone_mount_cmdline "rclone mount remote: X: --options".data
    = some ("X".data, "remote".data) := by decide

example : _parse_rclone_mount_cmdline
    ("\"C:\\path\\to\\rclone.exe\" mount myremote:folder Z: --vfs-cache-mode full").data
    = some ("Z".data, "myremote".data) := by decide

example : _parse_rclone_mount_cmdline "rclone mount remote:path/subdir x:".data
    = some ("X".data, "remote".data) := by decide

example : _parse_rclone_mount_cmdline "rclone ls remote:".data = none := by decide

example : _parse_rclone_mount_cmdline "mount a: b c: X: ".data = none := by decide

/-! ## The `Mount` data model (app/models/mount.py) -/

/-- `MountStatus` enum. -/
inductive MountStatus where
  | unmounted
  | mounting
  | mounted
  | error
deriving DecidableEq, Repr

/-- `MountStatus(...).value`. -/
def MountStatus.value : MountStatus → PyStr
  | .unmounted => "unmounted".data
  | .mounting => "mounting".data
  | .mounted => "mounted".data
  | .error => "error".data

/-- `MountStatus(s)` as a total function: `some` on the four recognized
strings, `none` where Python raises `ValueError`. -/
def MountStatus.ofString (s : PyStr) : Option MountStatus :=
  if s = "unmounted".data then some .unmounted
  else if s = "mounting".data then some .mounting
  else if s = "mounted".data then some .mounted
  else if s = "error".data then some .error
  else none

/-- The `Mount` dataclass.  `cache_mode` and `source` are Python `Literal`
types, which are not enforced at runtime, so they are plain strings here. -/
structure Mount where
  remote_name : PyStr
  remote_path : PyStr
  drive_letter : PyStr
  status : MountStatus
  auto_mount : Bool
  read_only : Bool
  cache_mode : PyStr
  vfs_cache_max_size : PyStr
  process_id : Option Int
  error_message : Option PyStr
  source : PyStr
deriving DecidableEq, Repr

/-- `re.match(r'^[A-Za-z]$', s)`: a single ASCII letter, optionally followed
by one final newline (Python's `$` also matches just before a trailing
newline). -/
def singleLetterMatch (s : PyStr) : Bool :=
  match s with
  | [c] => isAsciiLetter c
  | [c, nl] => isAsciiLetter c && nl == '\n'
  | _ => false

/-- `'..' in s` for a Python string. -/
def hasDotDot : PyStr → Bool
  | [] => false
  | [_] => false
  | a :: b :: rest => ((a == '.') && (b == '.')) || hasDotDot (b :: rest)

/-- The remote-name validation performed by `Mount.__post_init__`:
non-empty, and containing none of `..`, `/`, `\`. -/
def validRemoteName (r : PyStr) : Bool :=
  !r.isEmpty && !hasDotDot r && !r.contains '/' && !r.contains '\\'

/-- The cache-mode validation of `Mount.__post_init__`. -/
def cacheModeOk (s : PyStr) : Bool :=
  s = "off".data || s = "minimal".data || s = "writes".data || s = "full".data

/-- `re.match(r'^\d+[KMGT]?$', s, re.IGNORECASE)`: one or more digits, an
optional unit letter, and an optional final newline (again Python's `$`). -/
def vfsSizeOk (s : PyStr) : Bool :=
  let ds := s.takeWhile isDigitChar
  let rest := s.dropWhile isDigitChar
  let isUnit : Char → Bool := fun c =>
    c == 'K' || c == 'M' || c == 'G' || c == 'T' ||
    c == 'k' || c == 'm' || c == 'g' || c == 't'
  !ds.isEmpty &&
    (match rest with
     | [] => true
     | [u] => isUnit u || u == '\n'
     | [u, nl] => isUnit u && nl == '\n'
     | _ => false)

/-- The `Mount` dataclass constructor together with `__post_init__`: the
checks run in source order (drive letter, then remote name, then cache
mode, then cache size) and the drive letter is uppercased; a failed check
is Python's `ValueError`, modelled as `Except.error` carrying the message. -/
def mkMount (remote_name remote_path drive_letter : PyStr) (status : MountStatus)
    (auto_mount read_only : Bool) (cache_mode vfs_cache_max_size : PyStr)
    (process_id : Option Int) (error_message : Option PyStr) (source : PyStr) :
    Except PyStr Mount :=
  if !singleLetterMatch drive_letter then
    .error ("Invalid drive letter: ".data ++ drive_letter ++
      ". Must be a single letter A-Z.".data)
  else if !validRemoteName remote_name then
    .error ("Invalid remote name: ".data ++ remote_name)
  else if !cacheModeOk cache_mode then
    .error ("Invalid cache_mode: ".data ++ cache_mode)
  else if !vfsSizeOk vfs_cache_max_size then
    .error ("Invalid vfs_cache_max_size: ".data ++ vfs_cache_max_size)
  else
    .ok ⟨remote_name, remote_path, pyUpperStr drive_letter, status, auto_mount,
      read_only, cache_mode, vfs_cache_max_size, process_id, error_message, source⟩

/-- The serialized form of a `Mount`: the JSON object written by `to_dict`
and read by `from_dict`.  A field that is absent from the JSON object and a
field whose value is JSON `null` are indistinguishable to `from_dict`
(it reads every optional field with `dict.get`), so both are `none`. -/
structure MountDict where
  remote_name : Option PyStr
  remote_path : Option PyStr
  drive_letter : Option PyStr
  status : Option PyStr
  auto_mount : Option Bool
  read_only : Option Bool
  cache_mode : Option PyStr
  vfs_cache_max_size : Option PyStr
  process_id : Option Int
  error_message : Option PyStr
  source : Option PyStr
deriving DecidableEq, Repr

/-- `Mount.to_dict`: `None` (here `none`) for discovered mounts, otherwise
the full object. -/
def Mount.to_dict (m : Mount) : Option MountDict :=
  if m.source = "discovered".data then none
  else
    some ⟨some m.remote_name, some m.remote_path, some m.drive_letter,
      some m.status.value, some m.auto_mount, some m.read_only,
      some m.cache_mode, some m.vfs_cache_max_size, m.process_id,
      m.error_message, some m.source⟩

/-- `Mount.from_dict`: `KeyError` on a missing `remote_name` or
`drive_letter`; an unrecognized `status` string falls back to
`UNMOUNTED`; the constructor validation (`__post_init__`) can still
raise; `process_id` and `error_message` are attached afterwards. -/
def Mount.from_dict (d : MountDict) : Except PyStr Mount :=
  match d.remote_name with
  | none => .error "Missing required field: remote_name".data
  | some rn =>
    match d.drive_letter with
    | none => .error "Missing required field: drive_letter".data
    | some dl =>
      let statusValue := d.status.getD "unmounted".data
      let status := (MountStatus.ofString statusValue).getD .unmounted
      mkMount rn (d.remote_path.getD []) dl status
        (d.auto_mount.getD false) (d.read_only.getD false)
        (d.cache_mode.getD "off".data) (d.vfs_cache_max_size.getD "10G".data)
        d.process_id d.error_message (d.source.getD "config".data)

/-- `Mount.from_process_info`: synthesize a discovered mount from a live
process, with the placeholder remote name `unknown_<DRIVE>` when none is
supplied.  The dataclass constructor (and hence `__post_init__`
validation) runs, so this can raise `ValueError`. -/
def Mount.from_process_info (drive_letter : PyStr) (process_id : Int)
    (remote_name : PyStr) : Except PyStr Mount :=
  let rn := if remote_name.isEmpty then "unknown_".data ++ drive_letter
    else remote_name
  (mkMount rn [] drive_letter .mounted false false "off".data "10G".data
      none none "discovered".data).map
    (fun m => { m with process_id := some process_id })

example :
    (Mount.from_process_info "X".data 42 []).map Mount.remote_name
      = .ok "unknown_X".data := by rfl

example : (Mount.from_process_info "X".data 42 "a..b".data).isOk = false := by
  rfl

/-! ## `MountManager` operations (app/core/mount_manager.py)

The manager's state that these operations touch is its registry
`self.mounts` (a dict, modelled as an association list keyed by remote
name, or just its value list where only the values matter) and
`self.workers` (modelled by the list of remote names that own a worker).
The OS environment enters as explicit parameters: `isWindows` for
`os.name == 'nt'`, `driveExists` for `os.path.exists` on a drive-letter
path (the code spells the path both `X:` and `X:\`, which denote the same
drive, so one predicate keyed by the drive-letter string models both), and
the process-query result list for the PowerShell queries. -/

/-- `check_drive_exists` (app/models/mount.py): drive-letter existence on
Windows, `False` elsewhere. -/
def Mount.check_drive_exists (isWindows : Bool) (driveExists : PyStr → Bool)
    (m : Mount) : Bool :=
  isWindows && driveExists m.drive_letter

/-- The `is_mounted` property: real drive existence on Windows, the stored
status elsewhere. -/
def Mount.is_mounted (isWindows : Bool) (driveExists : PyStr → Bool)
    (m : Mount) : Bool :=
  if isWindows then m.check_drive_exists isWindows driveExists
  else m.status == .mounted

/-- `string.ascii_uppercase`. -/
def asciiUppercase : List Char := "ABCDEFGHIJKLMNOPQRSTUVWXYZ".data

/-- `MountManager.get_available_drives`: `[]` off Windows; on Windows the
uppercase letters, in alphabetical order, that are in the `used` set
neither as an existing filesystem drive nor as the drive letter of a
registry mount that `is_mounted`.  The Python `used` set is modelled by
its membership predicate inside the filter. -/
def MountManager.get_available_drives (isWindows : Bool) (mounts : List Mount)
    (driveExists : PyStr → Bool) : List Char :=
  if !isWindows then []
  else
    asciiUppercase.filter (fun d =>
      !(driveExists [d] ||
        mounts.any (fun m =>
          m.is_mounted isWindows driveExists && m.drive_letter == [d])))

/-- The loop body of `discover_system_mounts`: keep the process triples
whose drive letter is not claimed by a config mount, synthesizing a
discovered `Mount` for each; a `ValueError` raised by the `Mount`
constructor inside `from_process_info` propagates out of the loop. -/
def discoverLoop (config_drives : List PyStr) :
    List (PyStr × Int × PyStr) → Except PyStr (List Mount)
  | [] => .ok []
  | (d, pid, rn) :: rest =>
    if config_drives.contains d then discoverLoop config_drives rest
    else
      match Mount.from_process_info d pid rn with
      | .error e => .error e
      | .ok m =>
        match discoverLoop config_drives rest with
        | .error e => .error e
        | .ok ms => .ok (m :: ms)

/-- `MountManager.discover_system_mounts`: `[]` off Windows; on Windows,
filter the queried `(drive_letter, pid, remote_name)` process triples
against the drive letters of config-sourced registry mounts and build a
discovered `Mount` for each survivor. -/
def MountManager.discover_system_mounts (isWindows : Bool) (mounts : List Mount)
    (processes : List (PyStr × Int × PyStr)) : Except PyStr (List Mount) :=
  if !isWindows then .ok []
  else
    let config_drives :=
      (mounts.filter (fun m => m.source == "config".data)).map Mount.drive_letter
    discoverLoop config_drives processes

/-- The observable outcome of one `MountManager.unmount` call: its boolean
return value, the updated registry entry, the updated worker map, and
which of the three termination tiers ran. -/
structure UnmountOutcome where
  result : Bool
  mountAfter : Option Mount
  workersAfter : List PyStr
  workerStopped : Bool
  pidTerminationAttempted : Bool
  fallbackInvoked : Bool
deriving DecidableEq, Repr

/-- `MountManager.unmount`.  Tier (a): pop and stop the in-process worker.
Tier (b): guarded by the *truthiness* of `mount.process_id` (so a stored
pid of `0` is skipped); `_terminate_process_gracefully` catches every
exception internally and returns a bool, so the `except` arm around it
never fires and `terminated` is set whenever the branch is entered, and
the pid is cleared.  Tier (c): `_kill_rclone_mount_by_drive` runs only
when neither (a) nor (b) ran; its boolean result is only logged.  In every
found case the status becomes `UNMOUNTED` and the call returns `True`. -/
def MountManager.unmount (mounts : List (PyStr × Mount)) (workers : List PyStr)
    (remote_name : PyStr) : UnmountOutcome :=
  match (mounts.lookup remote_name) with
  | none =>
    ⟨false, none, workers, false, false, false⟩
  | some m =>
    let workerPresent := workers.contains remote_name
    let workersPopped := workers.erase remote_name
    let pidTruthy := match m.process_id with
      | some p => p ≠ 0
      | none => false
    let terminated := workerPresent || pidTruthy
    let m1 := if pidTruthy then { m with process_id := none } else m
    let m2 := { m1 with status := MountStatus.unmounted }
    ⟨true, some m2, workersPopped, workerPresent, pidTruthy, !terminated⟩

example :
    (MountManager.unmount [("x".data, ⟨"x".data, [], "Q".data, .mounted, false,
        false, "off".data, "10G".data, none, none, "config".data⟩)] []
      "x".data).fallbackInvoked = true := by rfl

/-! ## The `SyncTask` data model (app/models/sync_task.py) -/

/-- `SyncMode` enum. -/
inductive SyncMode where
  | sync
  | copy
  | move
  | bisync
deriving DecidableEq, Repr

/-- `SyncMode(s)`: `none` where Python raises `ValueError`. -/
def SyncMode.ofString (s : PyStr) : Option SyncMode :=
  if s = "sync".data then some .sync
  else if s = "copy".data then some .copy
  else if s = "move".data then some .move
  else if s = "bisync".data then some .bisync
  else none

/-- `SyncStatus` enum. -/
inductive SyncStatus where
  | idle
  | running
  | paused
  | completed
  | error
deriving DecidableEq, Repr

/-- `SyncStatus(s)`: `none` where Python raises `ValueError`. -/
def SyncStatus.ofString (s : PyStr) : Option SyncStatus :=
  if s = "idle".data then some .idle
  else if s = "running".data then some .running
  else if s = "paused".data then some .paused
  else if s = "completed".data then some .completed
  else if s = "error".data then some .error
  else none

/-- The `SyncTask` dataclass.  `last_run` (a `datetime`) is modelled as a
timestamp. -/
structure SyncTask where
  id : PyStr
  name : PyStr
  source : PyStr
  destination : PyStr
  mode : SyncMode
  status : SyncStatus
  _progress : Int
  delete_excluded : Bool
  dry_run : Bool
  bandwidth_limit : PyStr
  exclude_patterns : List PyStr
  scheduled : Bool
  cron_expression : PyStr
  last_run : Option Int
  files_transferred : Int
  bytes_transferred : Int
  error_message : Option PyStr
deriving DecidableEq, Repr

/-- The `SyncTask` constructor together with `__post_init__`.  `freshId`
stands for the `str(uuid.uuid4())` drawn when the given id is empty (the
`isinstance` arm of that check and the `isinstance` check on
`exclude_patterns` are type-level and have no counterpart here); the
initial `_progress` is clamped into `[0, 100]`. -/
def mkSyncTask (freshId : PyStr) (id name source destination : PyStr)
    (mode : SyncMode) (status : SyncStatus) (progress0 : Int)
    (delete_excluded dry_run : Bool) (bandwidth_limit : PyStr)
    (exclude_patterns : List PyStr) (scheduled : Bool)
    (cron_expression : PyStr) (last_run : Option Int)
    (files_transferred bytes_transferred : Int)
    (error_message : Option PyStr) : SyncTask :=
  let id' := if id.isEmpty then freshId.take 8 else id
  let p' := if 0 ≤ progress0 ∧ progress0 ≤ 100 then progress0
    else max 0 (min 100 progress0)
  ⟨id', name, source, destination, mode, status, p', delete_excluded, dry_run,
    bandwidth_limit, exclude_patterns, scheduled, cron_expression, last_run,
    files_transferred, bytes_transferred, error_message⟩

/-- The `progress` property setter: an in-range write stores the value, an
out-of-range write raises `ValueError` (here `Except.error`) and leaves
the task unchanged.  The `TypeError` arm for non-numeric input and the
`int(value)` float truncation are type-level; the argument is already an
integer here. -/
def SyncTask.set_progress (t : SyncTask) (value : Int) : Except PyStr SyncTask :=
  if 0 ≤ value ∧ value ≤ 100 then .ok { t with _progress := value }
  else .error ("进度必须在 0-100 之间，当前值: ".data ++ (toString value).data)

/-- The serialized form of a `SyncTask` as read by `SyncTask.from_dict`:
every field is read with `dict.get`, so absent fields are `none`. -/
structure SyncTaskDict where
  id : Option PyStr
  name : Option PyStr
  source : Option PyStr
  destination : Option PyStr
  mode : Option PyStr
  status : Option PyStr
  progress : Option Int
  delete_excluded : Option Bool
  dry_run : Option Bool
  bandwidth_limit : Option PyStr
  exclude_patterns : Option (List PyStr)
  scheduled : Option Bool
  cron_expression : Option PyStr
  last_run : Option PyStr
  files_transferred : Option Int
  bytes_transferred : Option Int
  error_message : Option PyStr
deriving DecidableEq, Repr

/-- `SyncTask.from_dict`.  An unrecognized `mode` or `status` string raises
`ValueError`; an out-of-range `progress` raises `ValueError` through the
property setter; an unparseable `last_run` (the `parseIso` parameter
models `datetime.fromisoformat`) is only logged and the field stays
`None`.  `freshId` models the `uuid.uuid4()` draw used both for the `id`
default and inside `__post_init__`. -/
def SyncTask.from_dict (parseIso : PyStr → Option Int) (freshId : PyStr)
    (d : SyncTaskDict) : Except PyStr SyncTask :=
  match SyncMode.ofString (d.mode.getD "sync".data) with
  | none => .error ("Invalid sync mode: ".data ++ d.mode.getD "sync".data)
  | some mode =>
    match SyncStatus.ofString (d.status.getD "idle".data) with
    | none => .error ("Invalid sync status: ".data ++ d.status.getD "idle".data)
    | some status =>
      let t := mkSyncTask freshId (d.id.getD (freshId.take 8))
        (d.name.getD []) (d.source.getD []) (d.destination.getD [])
        mode status 0 (d.delete_excluded.getD false) (d.dry_run.getD false)
        (d.bandwidth_limit.getD []) (d.exclude_patterns.getD [])
        (d.scheduled.getD false) (d.cron_expression.getD [])
        none 0 0 none
      (match d.progress with
        | none => Except.ok t
        | some p => t.set_progress p).map
        (fun (t : SyncTask) =>
          let t := match d.last_run with
            | some s =>
              if s.isEmpty then t
              else
                match parseIso s with
                | some ts => { t with last_run := some ts }
                | none => t
            | none => t
          let t := match d.files_transferred with
            | some v => { t with files_transferred := v }
            | none => t
          let t := match d.bytes_transferred with
            | some v => { t with bytes_transferred := v }
            | none => t
          match d.error_message with
            | some v => { t with error_message := some v }
            | none => t)

/-! ## `SyncManager.load_tasks` (app/core/sync_manager.py) -/

/-- `self.tasks[task.id] = task` on a dict modelled as an association list:
replace in place if the key exists, otherwise append. -/
def insertTask (ts : List (PyStr × SyncTask)) (t : SyncTask) :
    List (PyStr × SyncTask) :=
  if ts.any (fun p => p.1 == t.id) then
    ts.map (fun p => if p.1 == t.id then (p.1, t) else p)
  else ts ++ [(t.id, t)]

/-- The entry loop of `load_tasks`: each entry that `from_dict` rejects
with `KeyError`/`ValueError` is skipped; `freshId i` is the `uuid.uuid4()`
draw for the `i`-th entry. -/
def loadLoop (parseIso : PyStr → Option Int) (freshId : Nat → PyStr) :
    Nat → List SyncTaskDict → List (PyStr × SyncTask) → List (PyStr × SyncTask)
  | _, [], acc => acc
  | i, d :: rest, acc =>
    match SyncTask.from_dict parseIso (freshId i) d with
    | .ok t => loadLoop parseIso freshId (i + 1) rest (insertTask acc t)
    | .error _ => loadLoop parseIso freshId (i + 1) rest acc

/-- `SyncManager.load_tasks`.  `file` is the outcome of opening and
JSON-parsing `sync_tasks.json`: `none` when the file does not exist,
`some (.error e)` when `json.load` raises, `some (.ok data)` on a parsed
array.  In the failure cases the method returns `False` and the existing
task dict is untouched; on a parsed array it clears the dict, loads the
surviving entries and returns `True`. -/
def SyncManager.load_tasks (parseIso : PyStr → Option Int)
    (freshId : Nat → PyStr) (tasks0 : List (PyStr × SyncTask))
    (file : Option (Except PyStr (List SyncTaskDict))) :
    Bool × List (PyStr × SyncTask) :=
  match file with
  | none => (false, tasks0)
  | some (.error _) => (false, tasks0)
  | some (.ok data) => (true, loadLoop parseIso freshId 0 data [])

/-! ## `RClone._run` (app/core/rclone.py) -/

/-- `RCloneResult` dataclass. -/
structure RCloneResult where
  success : Bool
  stdout : PyStr
  stderr : PyStr
  return_code : Int
deriving DecidableEq, Repr

/-- The possible outcomes of the `subprocess.run` call inside
`RClone._run`: normal completion with an exit code and captured streams,
`subprocess.TimeoutExpired`, another `subprocess.SubprocessError` (launch
failure), or an `OSError`; `msg` is `str(e)`. -/
inductive SubprocOutcome where
  | completed (return_code : Int) (stdout stderr : PyStr)
  | timedOut
  | subprocessError (msg : PyStr)
  | osError (msg : PyStr)
deriving DecidableEq, Repr

/-- Is the outcome one of the three exception paths? -/
def SubprocOutcome.isFailurePath : SubprocOutcome → Bool
  | .completed _ _ _ => false
  | _ => true

/-- `RClone._run`: every `subprocess.run` outcome is normalized into an
`RCloneResult` — the function has no raising path, which the total Lean
type records.  A completed process yields `success = (returncode == 0)`
with its actual streams and code; each exception arm yields
`success=False`, a synthetic descriptive `stderr` and code `-1`. -/
def RClone.run_model (o : SubprocOutcome) : RCloneResult :=
  match o with
  | .completed code out err => ⟨code == 0, out, err, code⟩
  | .timedOut => ⟨false, [], "命令执行超时（300秒）".data, -1⟩
  | .subprocessError msg => ⟨false, [], "子进程错误: ".data ++ msg, -1⟩
  | .osError msg => ⟨false, [], "系统错误: ".data ++ msg, -1⟩

/-! ## `SyncScheduler` (app/core/scheduler.py)

The scheduler's mutable state is its task table, last-run table,
"triggered this cycle" set and last observed check time.  `croniter`'s
`get_next(datetime)` for a given cron expression is an opaque pure
function of the base time, passed in as the `nextRun` parameter;
`datetime.now()` readings arrive as explicit `now` arguments; datetimes
are timestamps (`Int`).  `add_task` validates expressions with
`croniter(...)` up front, so inside `_on_tick` the per-task
`ValueError`/`KeyError`/`TypeError` arms do not fire and `nextRun` is
total here. -/

/-- Scheduler state: `_scheduled_tasks`, `_last_run_times` (dicts as
association lists), `_triggered_tasks` (a set as a duplicate-free list)
and `_last_check_time`. -/
structure SchedState where
  scheduled : List (PyStr × PyStr)
  last_runs : List (PyStr × Int)
  triggered : List PyStr
  last_check : Option Int
deriving DecidableEq, Repr

/-- `dict[k] = v` on an association list. -/
def setAssoc (l : List (PyStr × Int)) (k : PyStr) (v : Int) :
    List (PyStr × Int) :=
  if l.any (fun p => p.1 == k) then
    l.map (fun p => if p.1 == k then (p.1, v) else p)
  else l ++ [(k, v)]

/-- The per-task loop of `_on_tick` over a snapshot of the task table:
compute the next fire time from the stored last-run time (epoch `0` when
absent); when due and not already in the live triggered set, add the task
to the set, stamp its last-run time with `now` and emit a due-event.
Returns the updated state and the emitted task ids in order. -/
def tickLoop (nextRun : PyStr → Int → Int) (now : Int) :
    List (PyStr × PyStr) → SchedState → SchedState × List PyStr
  | [], s => (s, [])
  | (taskId, cron) :: rest, s =>
    let base := ((s.last_runs.lookup taskId).getD 0)
    let due := nextRun cron base ≤ now
    if due then
      if s.triggered.contains taskId then tickLoop nextRun now rest s
      else
        let s' : SchedState :=
          { s with triggered := s.triggered ++ [taskId],
                   last_runs := setAssoc s.last_runs taskId now }
        let r := tickLoop nextRun now rest s'
        (r.1, taskId :: r.2)
    else tickLoop nextRun now rest s

/-- `SyncScheduler._on_tick`: first the clock-rollback check (a `now`
strictly before the recorded check time clears the whole triggered set),
then record `now` as the check time, then scan the tasks. -/
def SyncScheduler.tick (nextRun : PyStr → Int → Int) (s : SchedState)
    (now : Int) : SchedState × List PyStr :=
  let s1 := match s.last_check with
    | some t => if now < t then { s with triggered := ([] : List PyStr) } else s
    | none => s
  let s2 := { s1 with last_check := some now }
  tickLoop nextRun now s2.scheduled s2

/-- `SyncScheduler.update_last_run`: for a scheduled task, store the given
run time and discard the task from the triggered set. -/
def SyncScheduler.update_last_run (s : SchedState) (taskId : PyStr)
    (runTime : Int) : SchedState :=
  if (s.scheduled.lookup taskId).isSome then
    { s with last_runs := setAssoc s.last_runs taskId runTime,
             triggered := s.triggered.erase taskId }
  else s

/-! ## Helper lemmas about the character classes -/

theorem word_not_space (c : Char) (h : isWordChar c = true) : isSpace c = false := by
  cases hs : isSpace c
  · rfl
  · exfalso
    simp only [isSpace, Bool.or_eq_true, beq_iff_eq] at hs
    rcases hs with ((((rfl | rfl) | rfl) | rfl) | rfl) | rfl <;>
      exact absurd h (by decide)

theorem letter_not_space (c : Char) (h : isAsciiLetter c = true) :
    isSpace c = false := by
  apply word_not_space
  simp only [isWordChar, Bool.or_eq_true]
  simp only [isAsciiLetter, Bool.or_eq_true] at h
  tauto

theorem upper_pyUpper_fix (c : Char) (h : isUpperChar c = true) : pyUpper c = c := by
  unfold pyUpper
  have hl : isLowerChar c = false := by
    rw [Bool.eq_false_iff]
    intro hl
    rw [isLowerChar, Bool.and_eq_true, decide_eq_true_eq, decide_eq_true_eq] at hl
    rw [isUpperChar, Bool.and_eq_true, decide_eq_true_eq, decide_eq_true_eq] at h
    omega
  simp [hl]

theorem upper_is_letter (c : Char) (h : isUpperChar c = true) :
    isAsciiLetter c = true := by
  simp only [isAsciiLetter, Bool.or_eq_true]
  exact Or.inl h

theorem upper_ne_of_lt (c x : Char) (h : isUpperChar c = true)
    (hx : x.toNat < 65 ∨ 90 < x.toNat) : (x == c) = false := by
  rw [beq_eq_false_iff_ne]
  intro e
  rw [isUpperChar, Bool.and_eq_true, decide_eq_true_eq, decide_eq_true_eq] at h
  rw [← e] at h
  omega

theorem validRemoteName_unknown (c : Char) (h : isUpperChar c = true) :
    validRemoteName ("unknown_".data ++ [c]) = true := by
  have h2 : ('/' == c) = false := upper_ne_of_lt c '/' h (by decide)
  have h3 : ('\\' == c) = false := upper_ne_of_lt c '\\' h (by decide)
  simp [validRemoteName, hasDotDot, List.contains, h2, h3]
  exact ⟨beq_eq_false_iff_ne.mp h2, beq_eq_false_iff_ne.mp h3⟩

/-! ## Claim theorems -/

/-- C5: for every invocation of `RClone._run`, a timed-out, launch-failed
or OS-errored subprocess yields a Result with `success = False`, a
non-empty descriptive synthetic stderr and return code `-1`, with no
exception reaching the caller (the embedding is a total function); a
completed subprocess yields `success = True` iff its exit code is `0`,
with its actual stdout, stderr and exit code captured. -/
theorem c5_run_normalizes_all_outcomes (o : SubprocOutcome) :
    (∀ code out err, o = .completed code out err →
      ((RClone.run_model o).success = true ↔ code = 0) ∧
      (RClone.run_model o).stdout = out ∧
      (RClone.run_model o).stderr = err ∧
      (RClone.run_model o).return_code = code) ∧
    (o.isFailurePath = true →
      (RClone.run_model o).success = false ∧
      (RClone.run_model o).stderr ≠ [] ∧
      (RClone.run_model o).return_code = -1) := by
  constructor
  · rintro code out err rfl
    simp [RClone.run_model]
  · intro hf
    cases o with
    | completed code out err => simp [SubprocOutcome.isFailurePath] at hf
    | timedOut => exact ⟨rfl, by decide, rfl⟩
    | subprocessError msg =>
      refine ⟨rfl, ?_, rfl⟩
      intro hnil
      simp only [RClone.run_model] at hnil
      rw [List.append_eq_nil] at hnil
      exact absurd hnil.1 (by decide)
    | osError msg =>
      refine ⟨rfl, ?_, rfl⟩
      intro hnil
      simp only [RClone.run_model] at hnil
      rw [List.append_eq_nil] at hnil
      exact absurd hnil.1 (by decide)

theorem c5_run_normalizes_all_outcomes_witness :
    ((RClone.run_model (.completed 0 "out".data "err".data)).success = true ↔
      (0 : Int) = 0) ∧
    (RClone.run_model .timedOut).success = false := by
  refine ⟨((c5_run_normalizes_all_outcomes
    (.completed 0 "out".data "err".data)).1 0 "out".data "err".data rfl).1, ?_⟩
  exact ((c5_run_normalizes_all_outcomes .timedOut).2 rfl).1

/-- If the `Mount` constructor (with `__post_init__`) succeeds, the stored
status is the status that was passed in. -/
theorem mkMount_ok_status {rn rp dl : PyStr} {st : MountStatus}
    {am ro : Bool} {cm vs : PyStr} {pid : Option Int} {em : Option PyStr}
    {src : PyStr} {m : Mount}
    (h : mkMount rn rp dl st am ro cm vs pid em src = .ok m) :
    m.status = st := by
  unfold mkMount at h
  repeat' split at h
  all_goals cases h
  rfl

/-- C10: `Mount.from_dict` on a dict with the required keys and otherwise
valid values maps an unrecognized — or absent — `status` string to
`MountStatus.UNMOUNTED` instead of raising or skipping the entry: it
returns exactly the mount obtained for the status string `"unmounted"`,
and that mount's status is `UNMOUNTED`.  ("Otherwise valid" is the
hypothesis that the same dict with status `"unmounted"` loads.) -/
theorem c10_from_dict_bad_status_normalized (d : MountDict) (sBad : PyStr)
    (hbad : MountStatus.ofString sBad = none) (m : Mount)
    (hok : Mount.from_dict { d with status := some "unmounted".data } = .ok m) :
    Mount.from_dict { d with status := some sBad } = .ok m ∧
    Mount.from_dict { d with status := none } = .ok m ∧
    m.status = .unmounted := by
  unfold Mount.from_dict at hok ⊢
  cases hrn : d.remote_name with
  | none => rw [hrn] at hok; cases hok
  | some rn =>
    cases hdl : d.drive_letter with
    | none => rw [hrn, hdl] at hok; cases hok
    | some dl =>
      rw [hrn, hdl] at hok
      simp only [hrn, hdl]
      simp only [Option.getD_some] at hok ⊢
      have hu : MountStatus.ofString "unmounted".data = some .unmounted := by
        decide
      rw [hu] at hok
      rw [hbad]
      simp only [Option.getD_some, Option.getD_none] at hok ⊢
      rw [hu]
      simp only [Option.getD_some]
      exact ⟨hok, hok, mkMount_ok_status hok⟩

theorem c10_from_dict_bad_status_normalized_witness :
    ∃ m, Mount.from_dict
        ⟨some "r".data, some [], some "Q".data, some "bogus".data, some false,
          some false, some "off".data, some "10G".data, none, none,
          some "config".data⟩ = .ok m ∧ m.status = .unmounted := by
  have base : Mount.from_dict
      ⟨some "r".data, some [], some "Q".data, some "unmounted".data, some false,
        some false, some "off".data, some "10G".data, none, none,
        some "config".data⟩
      = .ok ⟨"r".data, [], "Q".data, .unmounted, false, false, "off".data,
        "10G".data, none, none, "config".data⟩ := by rfl
  have h := c10_from_dict_bad_status_normalized
    ⟨some "r".data, some [], some "Q".data, some "ignored".data, some false,
      some false, some "off".data, some "10G".data, none, none,
      some "config".data⟩
    "bogus".data (by decide) _ base
  exact ⟨_, h.1, h.2.2⟩

/-- C6 counterexample: writing `150` through the `progress` property setter
is *rejected* with a `ValueError` (here `Except.error`), not clamped to
`100` as the claim states. -/
theorem c6_progress_write_not_clamped_counterexample :
    SyncTask.set_progress
        ⟨"t1".data, [], [], [], .sync, .idle, 0, false, false, [], [], false,
          [], none, 0, 0, none⟩ 150
      = .error ("进度必须在 0-100 之间，当前值: 150".data) := by rfl

/-- C6 (amended): the stored progress of a `SyncTask` always lies in
`[0, 100]`: construction clamps an out-of-range initial value to the
nearest bound, while the `progress` property setter *rejects* an
out-of-range write with a `ValueError`, leaving the stored value
unchanged (an accepted write stores exactly the written in-range value);
and every constructed `SyncTask` has a non-empty id (given that the
`uuid.uuid4()` string drawn for the empty-id fallback is non-empty). -/
theorem c6_progress_invariant_amended
    (freshId id name src dst : PyStr) (mode : SyncMode) (status : SyncStatus)
    (p0 : Int) (de dr : Bool) (bl : PyStr) (ep : List PyStr) (sch : Bool)
    (ce : PyStr) (lr : Option Int) (ft bt : Int) (em : Option PyStr)
    (hfresh : freshId ≠ []) :
    (0 ≤ (mkSyncTask freshId id name src dst mode status p0 de dr bl ep sch
        ce lr ft bt em)._progress ∧
      (mkSyncTask freshId id name src dst mode status p0 de dr bl ep sch
        ce lr ft bt em)._progress ≤ 100) ∧
    (0 ≤ p0 ∧ p0 ≤ 100 →
      (mkSyncTask freshId id name src dst mode status p0 de dr bl ep sch
        ce lr ft bt em)._progress = p0) ∧
    (mkSyncTask freshId id name src dst mode status p0 de dr bl ep sch
        ce lr ft bt em).id ≠ [] ∧
    (∀ (t t' : SyncTask) (v : Int), SyncTask.set_progress t v = .ok t' →
      t'._progress = v ∧ 0 ≤ v ∧ v ≤ 100) ∧
    (∀ (t : SyncTask) (v : Int), v < 0 ∨ 100 < v →
      ∃ e, SyncTask.set_progress t v = .error e ∧ e ≠ []) := by
  refine ⟨?_, ?_, ?_, ?_, ?_⟩
  · unfold mkSyncTask
    dsimp only
    split
    · omega
    · omega
  · intro h
    unfold mkSyncTask
    dsimp only
    rw [if_pos h]
  · unfold mkSyncTask
    dsimp only
    split
    · intro h
      rw [List.take_eq_nil_iff] at h
      simp_all
    · simp_all [List.isEmpty_iff]
  · intro t t' v h
    unfold SyncTask.set_progress at h
    split at h
    · cases h
      simp_all
    · cases h
  · intro t v hv
    refine ⟨"进度必须在 0-100 之间，当前值: ".data ++ (toString v).data, ?_, ?_⟩
    · unfold SyncTask.set_progress
      rw [if_neg (by omega)]
    · intro hnil
      rw [List.append_eq_nil] at hnil
      exact absurd hnil.1 (by decide)

theorem c6_progress_invariant_amended_witness :
    (0 ≤ (mkSyncTask "abcdefghijkl".data "t2".data [] [] [] .sync .idle 150
        false false [] [] false [] none 0 0 none)._progress ∧
      (mkSyncTask "abcdefghijkl".data "t2".data [] [] [] .sync .idle 150
        false false [] [] false [] none 0 0 none)._progress ≤ 100) := by
  exact (c6_progress_invariant_amended "abcdefghijkl".data "t2".data [] [] []
    .sync .idle 150 false false [] [] false [] none 0 0 none (by decide)).1

/-- C4: for every mount present in the registry, `unmount(name)` returns
`True` and leaves the mount with status `UNMOUNTED` and a cleared
(`None`) process id — in every case, whether or not any process was found
to kill, and independently of drive existence; worker stop (tier a) runs
exactly when a worker is stored, pid termination (tier b) exactly when a
pid is stored, and the drive-letter process-search fallback (tier c) runs
exactly when neither a worker nor a pid was stored.  The hypothesis
`process_id ≠ some 0` excludes the stored pid `0` (not a real process id
on Windows), which Python's truthiness test on `mount.process_id` would
treat as absent. -/
theorem c4_unmount_tiers_and_idempotence (mounts : List (PyStr × Mount))
    (workers : List PyStr) (name : PyStr) (m : Mount)
    (hm : mounts.lookup name = some m) (hpid : m.process_id ≠ some 0) :
    (MountManager.unmount mounts workers name).result = true ∧
    (∃ m', (MountManager.unmount mounts workers name).mountAfter = some m' ∧
      m'.status = .unmounted ∧ m'.process_id = none) ∧
    (MountManager.unmount mounts workers name).workerStopped
      = workers.contains name ∧
    (MountManager.unmount mounts workers name).pidTerminationAttempted
      = m.process_id.isSome ∧
    ((MountManager.unmount mounts workers name).fallbackInvoked = true ↔
      workers.contains name = false ∧ m.process_id = none) := by
  have hAfter : MountManager.unmount mounts workers name =
      ⟨true,
        some { (if (match m.process_id with
                    | some p => p ≠ 0
                    | none => false : Bool) then
            { m with process_id := none } else m) with
          status := MountStatus.unmounted },
        workers.erase name, workers.contains name,
        (match m.process_id with
          | some p => p ≠ 0
          | none => false),
        !(workers.contains name ||
          (match m.process_id with
            | some p => p ≠ 0
            | none => false))⟩ := by
    unfold MountManager.unmount
    rw [hm]
  have htruthy : (match m.process_id with
      | some p => (p ≠ 0 : Bool)
      | none => false) = m.process_id.isSome := by
    cases hp : m.process_id with
    | none => rfl
    | some p =>
      simp only [Option.isSome_some]
      rw [hp] at hpid
      simp only [ne_eq, decide_eq_true_eq]
      intro e
      exact hpid (by rw [e])
  rw [hAfter]
  refine ⟨rfl, ?_, rfl, htruthy, ?_⟩
  · refine ⟨_, rfl, rfl, ?_⟩
    rw [htruthy]
    cases hp : m.process_id with
    | none => simp [hp]
    | some p => simp [hp]
  · rw [htruthy]
    cases hw : workers.contains name <;> cases hp : m.process_id <;> simp

theorem c4_unmount_tiers_and_idempotence_witness :
    (MountManager.unmount
        [("x".data, ⟨"x".data, [], "Q".data, .mounted, false, false,
          "off".data, "10G".data, none, none, "config".data⟩)] [] "x".data
      ).result = true ∧
    ((MountManager.unmount
        [("x".data, ⟨"x".data, [], "Q".data, .mounted, false, false,
          "off".data, "10G".data, none, none, "config".data⟩)] [] "x".data
      ).fallbackInvoked = true ↔
      List.contains ([] : List PyStr) "x".data = false ∧
      (none : Option Int) = none) := by
  have h := c4_unmount_tiers_and_idempotence
    [("x".data, ⟨"x".data, [], "Q".data, .mounted, false, false,
      "off".data, "10G".data, none, none, "config".data⟩)] [] "x".data
    ⟨"x".data, [], "Q".data, .mounted, false, false,
      "off".data, "10G".data, none, none, "config".data⟩ (by rfl) (by simp)
  exact ⟨h.1, h.2.2.2.2⟩

/-- The invariant `__post_init__` establishes on every successfully
constructed `Mount`: a single (already uppercased) drive letter, a valid
remote name, a recognized cache mode and a well-formed cache size.  Any
mount produced by `mkMount` satisfies it, since the validation runs on
exactly these fields and uppercasing is idempotent. -/
def mountValid (m : Mount) : Bool :=
  singleLetterMatch m.drive_letter && (pyUpperStr m.drive_letter == m.drive_letter)
    && validRemoteName m.remote_name && cacheModeOk m.cache_mode
    && vfsSizeOk m.vfs_cache_max_size

/-- `MountStatus(st.value) = st`: the enum round-trips through its string
value. -/
theorem statusOfString_value (st : MountStatus) :
    MountStatus.ofString st.value = some st := by
  cases st <;> rfl

/-- C7: a `Mount` with `source="discovered"` serializes to `None` (so it is
never written to the persisted registry); a valid `Mount` with
`source="config"` serializes to a complete object from which `from_dict`
rebuilds a mount equal to the original in every attribute. -/
theorem c7_serialization_roundtrip (m : Mount) :
    (m.source = "discovered".data → Mount.to_dict m = none) ∧
    (mountValid m = true → m.source = "config".data →
      ∃ d, Mount.to_dict m = some d ∧ Mount.from_dict d = .ok m) := by
  constructor
  · intro hs
    unfold Mount.to_dict
    rw [if_pos hs]
  · intro hv hs
    have hne : ¬(m.source = "discovered".data) := by
      rw [hs]; decide
    refine ⟨⟨some m.remote_name, some m.remote_path, some m.drive_letter,
      some m.status.value, some m.auto_mount, some m.read_only,
      some m.cache_mode, some m.vfs_cache_max_size, m.process_id,
      m.error_message, some m.source⟩, ?_, ?_⟩
    · unfold Mount.to_dict
      rw [if_neg hne]
    · unfold Mount.from_dict
      simp only [Option.getD_some]
      rw [statusOfString_value]
      simp only [Option.getD_some]
      simp only [mountValid, Bool.and_eq_true, beq_iff_eq] at hv
      obtain ⟨⟨⟨⟨hdl, hup⟩, hrn⟩, hcm⟩, hvs⟩ := hv
      unfold mkMount
      rw [if_neg (by rw [hdl]; simp), if_neg (by rw [hrn]; simp),
        if_neg (by rw [hcm]; simp), if_neg (by rw [hvs]; simp)]
      rw [hup]

theorem c7_serialization_roundtrip_witness :
    (Mount.to_dict ⟨"u".data, [], "Q".data, .mounted, false, false,
        "off".data, "10G".data, some 5, none, "discovered".data⟩ = none) ∧
    ∃ d, Mount.to_dict ⟨"r".data, "p".data, "Q".data, .mounted, true, false,
        "writes".data, "5G".data, some 7, some "e".data, "config".data⟩
        = some d ∧
      Mount.from_dict d = .ok ⟨"r".data, "p".data, "Q".data, .mounted, true,
        false, "writes".data, "5G".data, some 7, some "e".data, "config".data⟩ := by
  constructor
  · exact (c7_serialization_roundtrip _).1 rfl
  · exact (c7_serialization_roundtrip
      ⟨"r".data, "p".data, "Q".data, .mounted, true, false, "writes".data,
        "5G".data, some 7, some "e".data, "config".data⟩).2 (by decide) rfl

/-- C9 counterexample: with one *unmounted* config mount on drive `Q` in
the registry and no filesystem drive existing, `get_available_drives`
returns all 26 letters — including `Q`, which the registry mount claims as
its drive letter, contradicting the claim that every letter claimed by
any in-memory mount is excluded.  (The code only excludes the drive
letters of mounts that are currently `is_mounted`.) -/
theorem c9_available_drives_counterexample :
    MountManager.get_available_drives true
        [⟨"r".data, [], "Q".data, .unmounted, false, false, "off".data,
          "10G".data, none, none, "config".data⟩]
        (fun _ => false)
      = asciiUppercase ∧
    'Q' ∈ MountManager.get_available_drives true
        [⟨"r".data, [], "Q".data, .unmounted, false, false, "off".data,
          "10G".data, none, none, "config".data⟩]
        (fun _ => false) := by
  constructor
  · rfl
  · decide

/-- C9 (amended): on Windows, `get_available_drives` returns exactly the
uppercase letters A-Z such that no filesystem drive with that letter
currently exists and no *currently mounted* registry mount (`is_mounted`,
which on Windows is itself drive existence) claims that letter; off
Windows it returns the empty list. -/
theorem c9_available_drives_amended (mounts : List Mount)
    (driveExists : PyStr → Bool) (c : Char) :
    (c ∈ MountManager.get_available_drives true mounts driveExists ↔
      c ∈ asciiUppercase ∧ driveExists [c] = false ∧
      ∀ m ∈ mounts, m.is_mounted true driveExists = true →
        m.drive_letter ≠ [c]) ∧
    MountManager.get_available_drives false mounts driveExists = [] := by
  constructor
  · unfold MountManager.get_available_drives
    simp only [Bool.not_true, Bool.false_eq_true, if_false, List.mem_filter,
      Bool.not_eq_true', Bool.or_eq_false_iff, List.any_eq_false]
    constructor
    · rintro ⟨hmem, hex, hall⟩
      refine ⟨hmem, hex, ?_⟩
      intro m hm hmount heq
      exact hall m hm (by rw [hmount, heq]; simp)
    · rintro ⟨hmem, hex, hall⟩
      refine ⟨hmem, hex, ?_⟩
      intro m hm hab
      rw [Bool.and_eq_true, beq_iff_eq] at hab
      exact hall m hm hab.1 hab.2
  · rfl

/-- C2 counterexample: the remote name `a..b` is producible by the command
line parser (`mount a..b: X:` matches, `.` being in the remote-name
class), yet `discover_system_mounts` on the triple `("X", 123, "a..b")`
does *not* return a discovered `Mount` for it — the `Mount` constructor's
`ValueError` (the `'..' in remote_name` check in `__post_init__`)
propagates out of `from_process_info`, so no list is returned at all. -/
theorem c2_discover_counterexample :
    _parse_rclone_mount_cmdline "rclone mount a..b: X: ".data
      = some ("X".data, "a..b".data) ∧
    MountManager.discover_system_mounts true []
        [("X".data, 123, "a..b".data)]
      = .error ("Invalid remote name: a..b".data) := by
  constructor
  · decide
  · rfl

/-- C2 (amended): for every registry and every queried process-triple list
whose remote names are either empty or valid remote names (in particular,
free of `..` — every other parser-producible name is automatically valid)
and whose drive letters are single uppercase letters (as the parser
guarantees), `discover_system_mounts` returns exactly one `Mount` per
triple whose drive letter is not among the drive letters of config-sourced
mounts, each with `source="discovered"`, status `Mounted`, the triple's
pid as `process_id`, the (already uppercase) drive letter, and the parsed
remote name — or the placeholder `unknown_<DRIVE>` when none was
supplied. -/
theorem c2_discover_filters_config_drives (mounts : List Mount)
    (procs : List (PyStr × Int × PyStr))
    (hdrive : ∀ p ∈ procs, ∃ c, p.1 = [c] ∧ isUpperChar c = true)
    (hremote : ∀ p ∈ procs, p.2.2 = [] ∨ validRemoteName p.2.2 = true) :
    MountManager.discover_system_mounts true mounts procs =
      .ok (procs.filterMap (fun p =>
        if ((mounts.filter (fun m => m.source == "config".data)).map
            Mount.drive_letter).contains p.1 then
          none
        else
          some ⟨if p.2.2.isEmpty then "unknown_".data ++ p.1 else p.2.2, [],
            p.1, .mounted, false, false, "off".data, "10G".data, some p.2.1,
            none, "discovered".data⟩)) := by
  unfold MountManager.discover_system_mounts
  simp only [Bool.not_true, Bool.false_eq_true, if_false]
  induction procs with
  | nil => rfl
  | cons p rest ih =>
    obtain ⟨d, pid, rn⟩ := p
    obtain ⟨c, hc, hcu⟩ := hdrive ⟨d, pid, rn⟩ (by simp)
    replace hc : d = [c] := hc
    have hrem : rn = [] ∨ validRemoteName rn = true := hremote ⟨d, pid, rn⟩ (by simp)
    have hrest : MountManager.discover_system_mounts true mounts rest = _ :=
      ih (fun q hq => hdrive q (List.mem_cons_of_mem _ hq))
        (fun q hq => hremote q (List.mem_cons_of_mem _ hq))
    unfold MountManager.discover_system_mounts at hrest
    simp only [Bool.not_true, Bool.false_eq_true, if_false] at hrest
    unfold discoverLoop
    rw [List.filterMap_cons]
    dsimp only
    cases hmem : ((mounts.filter (fun m => m.source == "config".data)).map
        Mount.drive_letter).contains d with
    | true => simpa [hmem] using hrest
    | false =>
      simp only [hmem, Bool.false_eq_true, if_false]
      have hok : Mount.from_process_info d pid rn =
          .ok ⟨if rn.isEmpty then "unknown_".data ++ d else rn, [], d,
            .mounted, false, false, "off".data, "10G".data, some pid, none,
            "discovered".data⟩ := by
        unfold Mount.from_process_info mkMount
        have hsl : singleLetterMatch d = true := by
          rw [hc]
          unfold singleLetterMatch
          exact upper_is_letter c hcu
        have hvr : validRemoteName
            (if rn.isEmpty then "unknown_".data ++ d else rn) = true := by
          cases hrn : rn.isEmpty with
          | true =>
            rw [if_pos rfl, hc]
            exact validRemoteName_unknown c hcu
          | false =>
            rw [if_neg (by simp)]
            rcases hrem with h | h
            · rw [h] at hrn; simp at hrn
            · exact h
        have hupd : pyUpperStr d = d := by
          rw [hc]
          unfold pyUpperStr
          rw [List.map_singleton, upper_pyUpper_fix c hcu]
        have hcm : cacheModeOk "off".data = true := by decide
        have hvs : vfsSizeOk "10G".data = true := by decide
        simp only [hsl, hvr, hcm, hvs, hupd, Bool.not_true, Bool.false_eq_true,
          if_false, Except.map]
      rw [hok, hrest]

theorem c2_discover_filters_config_drives_witness :
    MountManager.discover_system_mounts true
        [⟨"cfg".data, [], "Q".data, .mounted, false, false, "off".data,
          "10G".data, none, none, "config".data⟩]
        [("Q".data, 11, "r1".data), ("X".data, 22, "r2".data),
          ("Y".data, 33, [])]
      = .ok [⟨"r2".data, [], "X".data, .mounted, false, false, "off".data,
          "10G".data, some 22, none, "discovered".data⟩,
        ⟨"unknown_Y".data, [], "Y".data, .mounted, false, false, "off".data,
          "10G".data, some 33, none, "discovered".data⟩] := by
  have h := c2_discover_filters_config_drives
    [⟨"cfg".data, [], "Q".data, .mounted, false, false, "off".data,
      "10G".data, none, none, "config".data⟩]
    [("Q".data, 11, "r1".data), ("X".data, 22, "r2".data), ("Y".data, 33, [])]
    (by
      intro p hp
      simp only [List.mem_cons, List.not_mem_nil, or_false] at hp
      rcases hp with rfl | rfl | rfl
      · exact ⟨'Q', rfl, by decide⟩
      · exact ⟨'X', rfl, by decide⟩
      · exact ⟨'Y', rfl, by decide⟩)
    (by decide)
  rw [h]
  rfl

/-- An entry of `sync_tasks.json` whose `progress` field (when present) is
in range.  For such an entry the only remaining failure sources in
`SyncTask.from_dict` are the `mode` and `status` enum parses. -/
def entryProgressOk (d : SyncTaskDict) : Bool :=
  match d.progress with
  | some p => 0 ≤ p && p ≤ 100
  | none => true

/-- `SyncTask.from_dict` succeeds on a progress-benign entry exactly when
both the `mode` string and the `status` string are recognized enum
values. -/
theorem from_dict_isOk_iff (parseIso : PyStr → Option Int) (freshId : PyStr)
    (d : SyncTaskDict) (hben : entryProgressOk d = true) :
    (SyncTask.from_dict parseIso freshId d).isOk = true ↔
      ((SyncMode.ofString (d.mode.getD "sync".data)).isSome = true ∧
       (SyncStatus.ofString (d.status.getD "idle".data)).isSome = true) := by
  unfold SyncTask.from_dict
  cases hm : SyncMode.ofString (d.mode.getD "sync".data) with
  | none => simp [Except.isOk, Except.toBool]
  | some mode =>
    cases hs : SyncStatus.ofString (d.status.getD "idle".data) with
    | none => simp [Except.isOk, Except.toBool]
    | some status =>
      simp only [Option.isSome_some, true_and]
      cases hp : d.progress with
      | none => simp [Except.map, Except.isOk, Except.toBool]
      | some p =>
        unfold entryProgressOk at hben
        rw [hp] at hben
        rw [Bool.and_eq_true, decide_eq_true_eq, decide_eq_true_eq] at hben
        dsimp only
        unfold SyncTask.set_progress
        rw [if_pos hben]
        simp [Except.map, Except.isOk, Except.toBool]

/-- The entry loop of `load_tasks` inserts, in order, exactly the tasks of
the entries on which `from_dict` succeeds. -/
theorem loadLoop_filterMap (parseIso : PyStr → Option Int)
    (freshId : Nat → PyStr) :
    ∀ (data : List SyncTaskDict) (i : Nat) (acc : List (PyStr × SyncTask)),
      loadLoop parseIso freshId i data acc =
        ((List.enumFrom i data).filterMap
            (fun p => (SyncTask.from_dict parseIso (freshId p.1) p.2).toOption)
          ).foldl insertTask acc := by
  intro data
  induction data with
  | nil => intro i acc; rfl
  | cons d rest ih =>
    intro i acc
    unfold loadLoop
    rw [List.enumFrom_cons, List.filterMap_cons]
    cases hfd : SyncTask.from_dict parseIso (freshId i) d with
    | ok t =>
      dsimp only [Except.toOption]
      rw [List.foldl_cons, ih]
      rfl
    | error e =>
      dsimp only [Except.toOption]
      rw [ih]
      rfl

/-- C8: on a parsed well-formed sync-task JSON array (each entry's
`progress`, when present, in range), `load_tasks` reports overall success
(`True`), the resulting task dict holds — in order — exactly the tasks of
the entries `from_dict` accepts, and an entry is accepted exactly when its
`mode` and `status` strings are recognized enum values, independently of
its sibling entries. -/
theorem c8_load_tasks_skips_bad_entries (parseIso : PyStr → Option Int)
    (freshId : Nat → PyStr) (tasks0 : List (PyStr × SyncTask))
    (data : List SyncTaskDict)
    (hben : ∀ d ∈ data, entryProgressOk d = true) :
    (SyncManager.load_tasks parseIso freshId tasks0 (some (.ok data))).1
      = true ∧
    (SyncManager.load_tasks parseIso freshId tasks0 (some (.ok data))).2
      = ((List.enumFrom 0 data).filterMap
          (fun p => (SyncTask.from_dict parseIso (freshId p.1) p.2).toOption)
        ).foldl insertTask [] ∧
    ∀ p ∈ List.enumFrom 0 data,
      ((SyncTask.from_dict parseIso (freshId p.1) p.2).isOk = true ↔
        ((SyncMode.ofString (p.2.mode.getD "sync".data)).isSome = true ∧
         (SyncStatus.ofString (p.2.status.getD "idle".data)).isSome = true)) := by
  refine ⟨rfl, ?_, ?_⟩
  · unfold SyncManager.load_tasks
    exact loadLoop_filterMap parseIso freshId data 0 []
  · intro p hp
    refine from_dict_isOk_iff parseIso (freshId p.1) p.2 (hben p.2 ?_)
    have := List.enumFrom_map_snd 0 data
    have hmem : p.2 ∈ (List.enumFrom 0 data).map Prod.snd :=
      List.mem_map_of_mem Prod.snd hp
    rw [this] at hmem
    exact hmem

theorem c8_load_tasks_skips_bad_entries_witness :
    (SyncManager.load_tasks (fun _ => none) (fun _ => "uuid".data) []
        (some (.ok [
          ⟨some "a".data, none, none, none, some "sync".data, some "idle".data,
            none, none, none, none, none, none, none, none, none, none, none⟩,
          ⟨some "b".data, none, none, none, some "bogus".data, some "idle".data,
            none, none, none, none, none, none, none, none, none, none, none⟩,
          ⟨some "c".data, none, none, none, some "copy".data, none,
            none, none, none, none, none, none, none, none, none, none, none⟩]))
      ).1 = true ∧
    ((SyncManager.load_tasks (fun _ => none) (fun _ => "uuid".data) []
        (some (.ok [
          ⟨some "a".data, none, none, none, some "sync".data, some "idle".data,
            none, none, none, none, none, none, none, none, none, none, none⟩,
          ⟨some "b".data, none, none, none, some "bogus".data, some "idle".data,
            none, none, none, none, none, none, none, none, none, none, none⟩,
          ⟨some "c".data, none, none, none, some "copy".data, none,
            none, none, none, none, none, none, none, none, none, none, none⟩]))
      ).2).map Prod.fst = ["a".data, "c".data] := by
  have h := c8_load_tasks_skips_bad_entries (fun _ => none)
    (fun _ => "uuid".data) []
    [⟨some "a".data, none, none, none, some "sync".data, some "idle".data,
        none, none, none, none, none, none, none, none, none, none, none⟩,
      ⟨some "b".data, none, none, none, some "bogus".data, some "idle".data,
        none, none, none, none, none, none, none, none, none, none, none⟩,
      ⟨some "c".data, none, none, none, some "copy".data, none,
        none, none, none, none, none, none, none, none, none, none, none⟩]
    (by decide)
  refine ⟨h.1, ?_⟩
  rw [h.2.1]
  rfl

/-- Looking up a key right after `dict[k] = v` yields `v` (replacing pass,
used when the key was present). -/
theorem lookup_replace (k : PyStr) (v : Int) :
    ∀ l : List (PyStr × Int), l.any (fun p => p.1 == k) = true →
      (l.map (fun p => if p.1 == k then (p.1, v) else p)).lookup k = some v := by
  intro l
  induction l with
  | nil => intro h; cases h
  | cons p rest ih =>
    intro h
    rw [List.map_cons]
    cases hp : (p.1 == k) with
    | true =>
      rw [if_pos rfl]
      have : k = p.1 := (beq_iff_eq.mp hp).symm
      rw [List.lookup_cons]
      rw [← this]
      simp
    | false =>
      rw [if_neg (by simp)]
      have hk : (k == p.1) = false := by
        rw [beq_eq_false_iff_ne]
        intro e
        rw [e] at hp
        simp at hp
      cases p with
      | mk k1 v1 =>
        rw [List.lookup_cons]
        simp only at hk
        rw [hk]
        rw [List.any_cons, Bool.or_eq_true] at h
        rcases h with h | h
        · simp only at hp; rw [hp] at h; cases h
        · exact ih h

/-- Looking up a key right after `dict[k] = v` yields `v` (appending pass,
used when the key was absent). -/
theorem lookup_append_new (k : PyStr) (v : Int) :
    ∀ l : List (PyStr × Int), l.any (fun p => p.1 == k) = false →
      (l ++ [(k, v)]).lookup k = some v := by
  intro l
  induction l with
  | nil => simp [List.lookup_cons]
  | cons p rest ih =>
    intro h
    rw [List.any_cons, Bool.or_eq_false_iff] at h
    cases p with
    | mk k1 v1 =>
      rw [List.cons_append, List.lookup_cons]
      have hk : (k == k1) = false := by
        rw [beq_eq_false_iff_ne]
        intro e
        rw [e] at h
        simp at h
      rw [hk]
      exact ih h.2

/-- Looking up a key right after `dict[k] = v` yields `v`. -/
theorem lookup_setAssoc (l : List (PyStr × Int)) (k : PyStr) (v : Int) :
    (setAssoc l k v).lookup k = some v := by
  unfold setAssoc
  cases hany : l.any (fun p => p.1 == k) with
  | true =>
    rw [if_pos rfl]
    exact lookup_replace k v l hany
  | false =>
    rw [if_neg (by simp)]
    exact lookup_append_new k v l hany

/-- C3: for a scheduled task whose computed next-fire-time is in the past,
three consecutive ticks (with a monotone clock, i.e. no rollback) emit
exactly one due-event: the first tick fires the task and the next two emit
nothing, the task staying in the "triggered" set; after an external
`update_last_run` for the task — and only then, the triggered entry being
cleared exactly by that call — a later tick whose `now` has reached the
newly computed next-fire-time fires the task again. -/
theorem c3_scheduler_fires_once_until_update (nextRun : PyStr → Int → Int)
    (taskId cron : PyStr) (lr0 : List (PyStr × Int))
    (now1 now2 now3 now4 runT : Int)
    (h1 : nextRun cron ((lr0.lookup taskId).getD 0) ≤ now1)
    (h12 : now1 ≤ now2) (h23 : now2 ≤ now3) (h34 : now3 ≤ now4)
    (h4 : nextRun cron runT ≤ now4) :
    (SyncScheduler.tick nextRun ⟨[(taskId, cron)], lr0, [], none⟩ now1).2
      = [taskId] ∧
    (SyncScheduler.tick nextRun
      (SyncScheduler.tick nextRun ⟨[(taskId, cron)], lr0, [], none⟩ now1).1
      now2).2 = [] ∧
    (SyncScheduler.tick nextRun
      (SyncScheduler.tick nextRun
        (SyncScheduler.tick nextRun ⟨[(taskId, cron)], lr0, [], none⟩ now1).1
        now2).1 now3).2 = [] ∧
    (SyncScheduler.tick nextRun
      (SyncScheduler.tick nextRun
        (SyncScheduler.tick nextRun ⟨[(taskId, cron)], lr0, [], none⟩ now1).1
        now2).1 now3).1.triggered = [taskId] ∧
    (SyncScheduler.tick nextRun
      (SyncScheduler.update_last_run
        (SyncScheduler.tick nextRun
          (SyncScheduler.tick nextRun
            (SyncScheduler.tick nextRun ⟨[(taskId, cron)], lr0, [], none⟩
              now1).1 now2).1 now3).1
        taskId runT) now4).2 = [taskId] := by
  have hcont : ([taskId].contains taskId) = true := by
    simp [List.contains]
  have e1 : SyncScheduler.tick nextRun ⟨[(taskId, cron)], lr0, [], none⟩ now1
      = (⟨[(taskId, cron)], setAssoc lr0 taskId now1, [taskId], some now1⟩,
        [taskId]) := by
    unfold SyncScheduler.tick tickLoop
    dsimp only
    rw [if_pos h1]
    unfold tickLoop
    dsimp only [List.contains, List.any_nil]
    rfl
  have hlA : (setAssoc lr0 taskId now1).lookup taskId = some now1 :=
    lookup_setAssoc lr0 taskId now1
  have e2 : SyncScheduler.tick nextRun
      ⟨[(taskId, cron)], setAssoc lr0 taskId now1, [taskId], some now1⟩ now2
      = (⟨[(taskId, cron)], setAssoc lr0 taskId now1, [taskId], some now2⟩,
        []) := by
    unfold SyncScheduler.tick
    dsimp only
    rw [if_neg (by omega)]
    unfold tickLoop
    dsimp only
    rw [hlA]
    dsimp only [Option.getD_some]
    by_cases hdue : nextRun cron now1 ≤ now2
    · rw [if_pos hdue, if_pos hcont]
      rfl
    · rw [if_neg hdue]
      rfl
  have e3 : SyncScheduler.tick nextRun
      ⟨[(taskId, cron)], setAssoc lr0 taskId now1, [taskId], some now2⟩ now3
      = (⟨[(taskId, cron)], setAssoc lr0 taskId now1, [taskId], some now3⟩,
        []) := by
    unfold SyncScheduler.tick
    dsimp only
    rw [if_neg (by omega)]
    unfold tickLoop
    dsimp only
    rw [hlA]
    dsimp only [Option.getD_some]
    by_cases hdue : nextRun cron now1 ≤ now3
    · rw [if_pos hdue, if_pos hcont]
      rfl
    · rw [if_neg hdue]
      rfl
  have e4 : SyncScheduler.update_last_run
      ⟨[(taskId, cron)], setAssoc lr0 taskId now1, [taskId], some now3⟩
      taskId runT
      = ⟨[(taskId, cron)], setAssoc (setAssoc lr0 taskId now1) taskId runT,
        [], some now3⟩ := by
    unfold SyncScheduler.update_last_run
    dsimp only
    rw [if_pos (by simp [List.lookup_cons])]
    simp [List.erase_cons]
  have hlB : (setAssoc (setAssoc lr0 taskId now1) taskId runT).lookup taskId
      = some runT := lookup_setAssoc _ taskId runT
  have e5 : SyncScheduler.tick nextRun
      ⟨[(taskId, cron)], setAssoc (setAssoc lr0 taskId now1) taskId runT,
        [], some now3⟩ now4
      = (⟨[(taskId, cron)],
          setAssoc (setAssoc (setAssoc lr0 taskId now1) taskId runT) taskId
            now4, [taskId], some now4⟩, [taskId]) := by
    unfold SyncScheduler.tick
    dsimp only
    rw [if_neg (by omega)]
    unfold tickLoop
    dsimp only
    rw [hlB]
    dsimp only [Option.getD_some]
    rw [if_pos h4]
    unfold tickLoop
    dsimp only [List.contains, List.any_nil]
    rfl
  rw [e1]
  dsimp only
  rw [e2]
  dsimp only
  rw [e3]
  dsimp only
  rw [e4, e5]
  exact ⟨rfl, rfl, rfl, rfl, rfl⟩

theorem c3_scheduler_fires_once_until_update_witness :
    (SyncScheduler.tick (fun _ b => b + 1)
        ⟨[("t".data, "cron".data)], [], [], none⟩ 5).2 = ["t".data] ∧
    (SyncScheduler.tick (fun _ b => b + 1)
      (SyncScheduler.tick (fun _ b => b + 1)
        ⟨[("t".data, "cron".data)], [], [], none⟩ 5).1 6).2 = [] := by
  have h := c3_scheduler_fires_once_until_update (fun _ b => b + 1)
    "t".data "cron".data [] 5 6 7 20 10 (by decide) (by decide) (by decide)
    (by decide) (by decide)
  exact ⟨h.1, h.2.1⟩

/-- A case-insensitive literal match only inspects the first
`pat.length` characters. -/
theorem ciStarts_append (pat : List Char) :
    ∀ (l ext : List Char), pat.length ≤ l.length →
      ciStarts pat (l ++ ext) = ciStarts pat l := by
  induction pat with
  | nil => intro l ext _; rfl
  | cons p ps ih =>
    intro l ext hlen
    cases l with
    | nil => simp at hlen
    | cons c cs =>
      rw [List.cons_append]
      unfold ciStarts
      rw [ih cs ext (by simpa using hlen)]

/-- Is there a case-insensitive occurrence of `mount` anywhere in `l`? -/
def hasMountCI : List Char → Bool
  | [] => false
  | c :: rest => startsWithMountCI (c :: rest) || hasMountCI rest

/-- The word-character status of the last character of `l` (or `pw` when
`l` is empty): the `prevWord` value reached after scanning `l`. -/
def lastWord (l : List Char) (pw : Bool) : Bool :=
  l.foldl (fun _ c => isWordChar c) pw

/-- `re.search` scans without attempting a match through a region free of
case-insensitive `mount` occurrences: searching `pre ++ "mount" ++ tail`
reduces to searching `"mount" ++ tail` with the boundary state carried
over, provided no occurrence of `mount` starts inside `pre` (occurrences
straddling into the real `mount` token are covered by checking
`pre ++ "moun"`). -/
theorem searchMount_skip (tail : List Char) :
    ∀ (pre : List Char) (pw : Bool),
      hasMountCI (pre ++ ['m', 'o', 'u', 'n']) = false →
      searchMount pw (pre ++ ('m' :: 'o' :: 'u' :: 'n' :: 't' :: tail))
        = searchMount (lastWord pre pw)
            ('m' :: 'o' :: 'u' :: 'n' :: 't' :: tail) := by
  intro pre
  induction pre with
  | nil => intro pw _; rfl
  | cons c pre' ih =>
    intro pw h
    have h2 : (startsWithMountCI (c :: (pre' ++ ['m', 'o', 'u', 'n'])) ||
        hasMountCI (pre' ++ ['m', 'o', 'u', 'n'])) = false := h
    rw [Bool.or_eq_false_iff] at h2
    have hsw : startsWithMountCI
        (c :: (pre' ++ ('m' :: 'o' :: 'u' :: 'n' :: 't' :: tail))) = false := by
      have hsplit : c :: (pre' ++ ('m' :: 'o' :: 'u' :: 'n' :: 't' :: tail))
          = (c :: (pre' ++ ['m', 'o', 'u', 'n'])) ++ ('t' :: tail) := by
        simp
      rw [hsplit]
      unfold startsWithMountCI
      rw [ciStarts_append mountLit (c :: (pre' ++ ['m', 'o', 'u', 'n']))
        ('t' :: tail) (by simp [mountLit])]
      exact h2.1
    rw [List.cons_append]
    unfold searchMount
    rw [hsw]
    simp only [Bool.and_false, Bool.false_eq_true, if_false]
    rw [ih (isWordChar c) h2.2]
    rfl

/-- Head condition used by the maximal-run lemma: `p` fails on the first
character of `l` (vacuously for empty `l`). -/
def headNotP (p : Char → Bool) : List Char → Prop
  | [] => True
  | c :: _ => p c = false

/-- A maximal run: when `p` holds on all of `xs` and fails at the head of
`ys`, `takeWhile`/`dropWhile` split `xs ++ ys` exactly at the border. -/
theorem span_append_exact (p : Char → Bool) :
    ∀ (xs ys : List Char), (∀ c ∈ xs, p c = true) → headNotP p ys →
      (xs ++ ys).takeWhile p = xs ∧ (xs ++ ys).dropWhile p = ys := by
  intro xs
  induction xs with
  | nil =>
    intro ys _ hy
    cases ys with
    | nil => exact ⟨rfl, rfl⟩
    | cons y ys' =>
      unfold headNotP at hy
      constructor
      · rw [List.nil_append, List.takeWhile_cons, hy]
        rfl
      · rw [List.nil_append, List.dropWhile_cons, hy]
        rfl
  | cons x xs' ih =>
    intro ys hx hy
    have hpx : p x = true := hx x (by simp)
    obtain ⟨iht, ihd⟩ := ih ys (fun c hc => hx c (by simp [hc])) hy
    constructor
    · rw [List.cons_append, List.takeWhile_cons, hpx]
      rw [iht]
      rfl
    · rw [List.cons_append, List.dropWhile_cons, hpx]
      rw [ihd]
      rfl

/-- Completeness of the single-position matcher: at the position right
after `mount`, a command-line tail of the documented shape
`<ws> <remote> ':' <path> <ws> <drive> ':' <rest>` (with non-empty
whitespace runs, a class-conforming non-empty remote name, a
whitespace-free path, a letter drive and `rest` empty or starting with
whitespace) matches, capturing exactly the remote name and the drive
letter. -/
theorem matchAfterMount_complete (ws1 r0 path ws2 rest : List Char)
    (d c0 : Char)
    (hws1ne : ws1 ≠ []) (hws1 : ∀ c ∈ ws1, isSpace c = true)
    (hc0 : isWordChar c0 = true)
    (hremC : ∀ c ∈ c0 :: r0, isRemoteCont c = true)
    (hpath : ∀ c ∈ path, isSpace c = false)
    (hws2ne : ws2 ≠ []) (hws2 : ∀ c ∈ ws2, isSpace c = true)
    (hd : isAsciiLetter d = true)
    (hrest : headNotP (fun c => !isSpace c) rest) :
    matchAfterMount
        (ws1 ++ ((c0 :: r0) ++ ':' :: (path ++ ws2 ++ d :: ':' :: rest)))
      = some (c0 :: r0, d) := by
  have hws1e : ws1.isEmpty = false := by
    cases ws1 with
    | nil => exact absurd rfl hws1ne
    | cons a l => rfl
  have hws2e : ws2.isEmpty = false := by
    cases ws2 with
    | nil => exact absurd rfl hws2ne
    | cons a l => rfl
  obtain ⟨h1t, h1d⟩ := span_append_exact isSpace ws1
    ((c0 :: r0) ++ ':' :: (path ++ ws2 ++ d :: ':' :: rest)) hws1
    (by
      show isSpace c0 = false
      exact word_not_space c0 hc0)
  obtain ⟨h2t, h2d⟩ := span_append_exact isRemoteCont (c0 :: r0)
    (':' :: (path ++ ws2 ++ d :: ':' :: rest)) hremC
    (by
      show isRemoteCont ':' = false
      decide)
  obtain ⟨w0, ws2', hw0⟩ : ∃ w0 ws2', ws2 = w0 :: ws2' := by
    cases ws2 with
    | nil => exact absurd rfl hws2ne
    | cons a l => exact ⟨a, l, rfl⟩
  obtain ⟨h3t, h3d⟩ := span_append_exact (fun c => !isSpace c) path
    (ws2 ++ (d :: ':' :: rest))
    (by
      intro c hc
      show (!isSpace c) = true
      rw [hpath c hc]
      rfl)
    (by
      rw [hw0]
      show (!isSpace w0) = false
      rw [hws2 w0 (by rw [hw0]; simp)]
      rfl)
  obtain ⟨h4t, h4d⟩ := span_append_exact isSpace ws2 (d :: ':' :: rest) hws2
    (by
      show isSpace d = false
      exact letter_not_space d hd)
  have hmrest : headSpaceOrEnd rest = true := by
    cases rest with
    | nil => rfl
    | cons r rs =>
      show isSpace r = true
      have hr : (!isSpace r) = false := hrest
      simpa using hr
  rw [List.cons_append] at h2t h2d
  unfold matchAfterMount
  rw [if_neg (by rw [h1t, hws1e]; simp)]
  rw [h1d]
  rw [List.cons_append]
  simp only [mountTailRemote]
  rw [if_pos hc0, h2t, h2d]
  simp only [mountTailColon]
  unfold mountTailPath
  dsimp only
  rw [List.append_assoc]
  rw [h3d]
  rw [if_neg (by rw [h4t, hws2e]; simp)]
  rw [h4d]
  simp only [mountTailDrive]
  rw [hd, hmrest]
  rfl

/-- C1: for every command-line string matching the documented
mount-invocation grammar — an arbitrary prefix free of earlier `mount`
occurrences and ending at a word boundary, the `mount` token, whitespace,
a remote name in the documented character classes, a colon, an optional
non-whitespace path, whitespace, a single (either-case) drive letter with
trailing colon followed by whitespace or end-of-line —
`_parse_rclone_mount_cmdline` returns exactly the pair (drive letter
uppercased, the remote name embedded in the string).  The parser is a
total function, so no input raises; in particular the empty string (the
`not cmdline` guard) yields the no-match result `none`. -/
theorem c1_parser_extracts_drive_and_remote
    (pre ws1 r0 path ws2 rest : List Char) (c0 d : Char)
    (hpre : hasMountCI (pre ++ ['m', 'o', 'u', 'n']) = false)
    (hbound : lastWord pre false = false)
    (hws1ne : ws1 ≠ []) (hws1 : ∀ c ∈ ws1, isSpace c = true)
    (hc0 : isWordChar c0 = true)
    (hremC : ∀ c ∈ c0 :: r0, isRemoteCont c = true)
    (hpath : ∀ c ∈ path, isSpace c = false)
    (hws2ne : ws2 ≠ []) (hws2 : ∀ c ∈ ws2, isSpace c = true)
    (hd : isAsciiLetter d = true)
    (hrest : headNotP (fun c => !isSpace c) rest) :
    _parse_rclone_mount_cmdline
        (pre ++ ('m' :: 'o' :: 'u' :: 'n' :: 't' ::
          (ws1 ++ ((c0 :: r0) ++ ':' :: (path ++ ws2 ++ d :: ':' :: rest)))))
      = some ([pyUpper d], c0 :: r0) ∧
    _parse_rclone_mount_cmdline [] = none := by
  constructor
  · have hmatch := matchAfterMount_complete ws1 r0 path ws2 rest d c0
      hws1ne hws1 hc0 hremC hpath hws2ne hws2 hd hrest
    have hsearch : searchMount false
        ('m' :: 'o' :: 'u' :: 'n' :: 't' ::
          (ws1 ++ ((c0 :: r0) ++ ':' :: (path ++ ws2 ++ d :: ':' :: rest))))
        = some (c0 :: r0, d) := by
      calc searchMount false ('m' :: 'o' :: 'u' :: 'n' :: 't' ::
            (ws1 ++ ((c0 :: r0) ++ ':' :: (path ++ ws2 ++ d :: ':' :: rest))))
          = (match matchAfterMount
              (ws1 ++ ((c0 :: r0) ++ ':' :: (path ++ ws2 ++ d :: ':' :: rest)))
              with
            | some r => some r
            | none => searchMount (isWordChar 'm')
                ('o' :: 'u' :: 'n' :: 't' ::
                  (ws1 ++ ((c0 :: r0) ++ ':' ::
                    (path ++ ws2 ++ d :: ':' :: rest))))) := rfl
        _ = some (c0 :: r0, d) := by rw [hmatch]
    unfold _parse_rclone_mount_cmdline
    rw [searchMount_skip _ pre false hpre, hbound, hsearch]
  · rfl

theorem c1_parser_extracts_drive_and_remote_witness :
    _parse_rclone_mount_cmdline
        ("rclone ".data ++ ('m' :: 'o' :: 'u' :: 'n' :: 't' ::
          (" ".data ++ (('m' :: "yremote".data) ++ ':' ::
            ("folder".data ++ " ".data ++ 'z' :: ':' :: " --read-only".data)))))
      = some ([pyUpper 'z'], 'm' :: "yremote".data) ∧
    _parse_rclone_mount_cmdline [] = none := by
  exact c1_parser_extracts_drive_and_remote "rclone ".data " ".data
    "yremote".data "folder".data " ".data " --read-only".data 'm' 'z'
    (by decide) (by decide) (by decide) (by decide) (by decide) (by decide)
    (by decide) (by decide) (by decide) (by decide)
    (by
      show (!isSpace ' ') = false
      decide)
